import Mathlib

/-!
Verification of src/cmd/init/crio-lxc-init.c against its specification.

The program is shallowly embedded: file contents are lists of byte values
(natural numbers below 256), the process environment is an association list,
and every libc call whose result depends only on the data in the model
(getc on a given file content, setenv, strncpy, strlen, fgets) is translated
to a pure Lean function.  I/O failures (fopen returning NULL, read errors
setting errno) are outside the model: file contents are given, so fopen
succeeds and errno stays 0 throughout.  Return values that depend on the
outside world (open/write/close on the fifo, execvp) are passed in as
parameters.
-/

set_option autoImplicit false

/-- The conversion performed by the line `char c; c = getc(f);` in
`load_environment` (line 85/91 of crio-lxc-init.c): `getc` yields the byte
as a value in 0..255, the assignment truncates it into a signed `char`
(the default on the target platform), and subsequent comparisons promote it
back to `int`.  A byte 255 therefore compares equal to `EOF = -1`. -/
def toSChar (b : Nat) : Int :=
  if b < 128 then (b : Int) else (b : Int) - 256

/-- Result of the inner `for` loop of `load_environment` (lines 90-112):
one record has been scanned.
* `done key value eof rest`: the loop ended with `break` — `eof` tells
  whether `c == EOF` (true) or `c == '\0'` (false) caused it; `key` holds
  the bytes written to `buf` before the first `'='`, `value` the bytes
  written after it (`none` while no `'='` was seen), `rest` the bytes of
  the stream not yet consumed.
* `e2big`: the `return E2BIG` at line 104 fired.
* `fellOff`: the loop condition `i < buflen` failed at entry (only
  possible when `buflen = 0`); `buf` gets no terminator and `c` is left
  unchanged. -/
inductive ReadA where
  | done (key : List Nat) (value : Option (List Nat)) (eof : Bool) (rest : List Nat) : ReadA
  | e2big : ReadA
  | fellOff (key : List Nat) (value : Option (List Nat)) (rest : List Nat) : ReadA
deriving DecidableEq

/-- The inner `for` loop of `load_environment` (lines 90-112 of
crio-lxc-init.c), reading one `key=value` record into the buffer.
The checks appear in source order: `c == EOF` (line 92), store and
`c == '\0'` (line 99), `i == buflen-1` giving `E2BIG` (line 103), and the
first `'='` (byte 61) terminating the key and starting the value
(line 108). -/
def readRec : List Nat → Nat → Nat → List Nat → Option (List Nat) → ReadA
  | [], i, buflen, key, value =>
      if i < buflen then .done key value true [] else .fellOff key value []
  | b :: rest, i, buflen, key, value =>
      if i < buflen then
        if toSChar b = -1 then .done key value true rest
        else if toSChar b = 0 then .done key value false rest
        else if i = buflen - 1 then .e2big
        else
          match value with
          | none =>
              if toSChar b = 61 then readRec rest (i + 1) buflen key (some [])
              else readRec rest (i + 1) buflen (key ++ [b]) none
          | some v => readRec rest (i + 1) buflen key (some (v ++ [b]))
      else .fellOff key value (b :: rest)

/-- The process environment: an association list of (name, value) byte
strings, standing for the table `setenv` mutates. -/
abbrev Env := List (List Nat × List Nat)

/-- The update `setenv(name, value, 1)` performs on the environment table
when it succeeds: overwrite the entry with the same name, or append a new
one. -/
def setenvUpd : Env → List Nat → List Nat → Env
  | [], k, v => [(k, v)]
  | (k0, v0) :: rest, k, v =>
      if k0 = k then (k, v) :: rest else (k0, v0) :: setenvUpd rest k v

/-- A record scan that ends at a `'\0'` consumed at least that byte. -/
theorem readRec_rest_length (s : List Nat) :
    ∀ (i buflen : Nat) (key : List Nat) (value : Option (List Nat))
      (k : List Nat) (v : Option (List Nat)) (rest : List Nat),
      readRec s i buflen key value = .done k v false rest →
      rest.length < s.length := by
  induction s with
  | nil =>
      intro i buflen key value k v rest h
      simp only [readRec] at h
      split at h
      · cases h
      · cases h
  | cons b s ih =>
      intro i buflen key value k v rest h
      simp only [readRec] at h
      split at h
      · split at h
        · cases h
        · split at h
          · cases h
            simp
          · split at h
            · cases h
            · cases value with
              | none =>
                  simp only [] at h
                  split at h
                  · have := ih (i + 1) buflen key (some []) k v rest h
                    simp only [List.length_cons]
                    omega
                  · have := ih (i + 1) buflen (key ++ [b]) none k v rest h
                    simp only [List.length_cons]
                    omega
              | some v0 =>
                  simp only [] at h
                  have := ih (i + 1) buflen key (some (v0 ++ [b])) k v rest h
                  simp only [List.length_cons]
                  omega
      · cases h

/-- The whole of `load_environment` (lines 74-130 of crio-lxc-init.c),
as a function of the bytes of the `environ` file, the buffer capacity and
the current environment table; it returns the C `int` result and the final
environment.  Modelling notes, all visible in the source:
* `fopen` succeeds (the file content is given) and no read error occurs,
  so the two `errno` checks (lines 113, 126) never fire and the final
  `fclose` (line 129) returns 0.
* the variable `c` is read uninitialized by the first evaluation of
  `while (c != EOF)` (line 87); the model takes the loop as entered, which
  is how the compiled program behaves.
* a record whose scan ends in `'\0'` or `EOF` with no `'='` seen hits
  `return EINVAL` (line 118, value 22); a scan that fills the buffer hits
  `return E2BIG` (line 104, value 7).
* `setenv` (line 122) fails with `EINVAL` only when the name is empty
  (POSIX), which the code maps to `return -1` (line 123). -/
def load_environment (s : List Nat) (buflen : Nat) (env : Env) : Int × Env :=
  match h : readRec s 0 buflen [] none with
  | .e2big => (7, env)
  | .fellOff _ _ _ => (22, env)
  | .done _ none _ _ => (22, env)
  | .done key (some v) true _ =>
      if key = [] then (-1, env) else (0, setenvUpd env key v)
  | .done key (some v) false rest =>
      if key = [] then (-1, env)
      else load_environment rest buflen (setenvUpd env key v)
termination_by s.length
decreasing_by
  exact readRec_rest_length s 0 buflen [] none key (some v) rest h

/-- Unfolding `load_environment` when the record scan hit `return E2BIG`. -/
theorem load_environment_e2big (s : List Nat) (buflen : Nat) (env : Env)
    (h : readRec s 0 buflen [] none = .e2big) :
    load_environment s buflen env = (7, env) := by
  rw [load_environment.eq_def]
  split
  · rfl
  · rename_i heq; rw [h] at heq; cases heq
  · rename_i heq; rw [h] at heq; cases heq
  · rename_i heq; rw [h] at heq; cases heq
  · rename_i heq; rw [h] at heq; cases heq

/-- Unfolding `load_environment` when the record scan saw no `'='`:
the `value == NULL` test at line 117 gives `return EINVAL`. -/
theorem load_environment_done_none (s : List Nat) (buflen : Nat) (env : Env)
    (k : List Nat) (eof : Bool) (rest : List Nat)
    (h : readRec s 0 buflen [] none = .done k none eof rest) :
    load_environment s buflen env = (22, env) := by
  rw [load_environment.eq_def]
  split
  · rename_i heq; rw [h] at heq; cases heq
  · rfl
  · rfl
  · rename_i heq; rw [h] at heq; cases heq
  · rename_i heq; rw [h] at heq; cases heq

/-- Unfolding `load_environment` when the `for` loop was never entered
(`buflen = 0`): `value` stays `NULL`, so `return EINVAL`. -/
theorem load_environment_fellOff (s : List Nat) (buflen : Nat) (env : Env)
    (k : List Nat) (v : Option (List Nat)) (rest : List Nat)
    (h : readRec s 0 buflen [] none = .fellOff k v rest) :
    load_environment s buflen env = (22, env) := by
  rw [load_environment.eq_def]
  split
  · rename_i heq; rw [h] at heq; cases heq
  · rfl
  · rfl
  · rename_i heq; rw [h] at heq; cases heq
  · rename_i heq; rw [h] at heq; cases heq

/-- Unfolding `load_environment` for a record terminated by `EOF` with a
value present: `setenv` runs, then `c == EOF` ends the `while` loop and
`fclose` returns 0. -/
theorem load_environment_done_true (s : List Nat) (buflen : Nat) (env : Env)
    (k : List Nat) (v : List Nat) (rest : List Nat)
    (h : readRec s 0 buflen [] none = .done k (some v) true rest) :
    load_environment s buflen env =
      if k = [] then (-1, env) else (0, setenvUpd env k v) := by
  rw [load_environment.eq_def]
  split
  · rename_i heq; rw [h] at heq; cases heq
  · rename_i heq; rw [h] at heq; cases heq
  · rename_i heq; rw [h] at heq; cases heq
  · rename_i heq; rw [h] at heq; cases heq; rfl
  · rename_i heq; rw [h] at heq; cases heq

/-- Unfolding `load_environment` for a record terminated by `'\0'` with a
value present: `setenv` runs and the `while` loop starts the next record. -/
theorem load_environment_done_false (s : List Nat) (buflen : Nat) (env : Env)
    (k : List Nat) (v : List Nat) (rest : List Nat)
    (h : readRec s 0 buflen [] none = .done k (some v) false rest) :
    load_environment s buflen env =
      if k = [] then (-1, env)
      else load_environment rest buflen (setenvUpd env k v) := by
  rw [load_environment.eq_def]
  split
  · rename_i heq; rw [h] at heq; cases heq
  · rename_i heq; rw [h] at heq; cases heq
  · rename_i heq; rw [h] at heq; cases heq
  · rename_i heq; rw [h] at heq; cases heq
  · rename_i heq; rw [h] at heq; cases heq; rfl

/-- The length of a C string: bytes up to the first NUL. -/
def cstr (l : List Nat) : List Nat := l.takeWhile (fun b => b ≠ 0)

/-- strlen of a byte string. -/
def strlenOf (l : List Nat) : Nat := (cstr l).length

/-- One step of `fgets(buf, buflen, f)` reading characters: at most `n`
characters are taken, reading stops just after a newline (byte 10).
Returns the characters stored and the rest of the stream. -/
def fgetsGo : Nat → List Nat → List Nat × List Nat
  | 0, s => ([], s)
  | _ + 1, [] => ([], [])
  | n + 1, b :: rest =>
      if b = 10 then ([10], rest)
      else
        let p := fgetsGo n rest
        (b :: p.1, p.2)

/-- `fgets(buf, buflen, f)` on a stream: `none` models the NULL return at
end-of-file with nothing read; otherwise at most `buflen - 1` characters
are stored (stopping after a newline) and NUL-terminated. -/
def fgets (buflen : Nat) (s : List Nat) : Option (List Nat × List Nat) :=
  if s = [] then none else some (fgetsGo (buflen - 1) s)

/-- `strndup(line, strlen(line)-1)` at line 60 of crio-lxc-init.c: the
stored line with its last character (the trailing newline) removed. -/
def lineToken (line : List Nat) : List Nat :=
  (cstr line).take ((cstr line).length - 1)

/-- The `for` loop of `readlines` (lines 55-61 of crio-lxc-init.c): at most
`maxlines - 1` iterations, each reading one line with `fgets` and recording
`strndup(line, strlen(line)-1)`; a NULL `fgets` return breaks the loop. -/
def readlinesGo : Nat → Nat → List Nat → List (List Nat)
  | 0, _, _ => []
  | n + 1, buflen, s =>
      match fgets buflen s with
      | none => []
      | some (line, rest) => lineToken line :: readlinesGo n buflen rest

/-- `readlines(path, buf, buflen, lines, maxlines)` (lines 41-70) as a
function of the `cmdline.txt` bytes: the list of recorded tokens.  The int
return of the C function is the length of this list; the `-1` returns
(fopen failure, read error, fclose failure) are I/O failures outside this
model, in which the file content is given and reads do not fail. -/
def readlines (s : List Nat) (buflen maxlines : Nat) : List (List Nat) :=
  readlinesGo (maxlines - 1) buflen s

/-- The `lines` array after `readlines` returns `n ≥ 0`: the `n` tokens
followed by the NULL sentinel stored at line 68. -/
def readlinesArray (s : List Nat) (buflen maxlines : Nat) : List (Option (List Nat)) :=
  (readlines s buflen maxlines).map some ++ [none]

/-- `strncpy(dst, src, n)`: copy at most `n` bytes, stopping at the source
NUL and zero-filling the remainder; when the source is at least `n` bytes
no NUL is written. -/
def strncpyN (src : List Nat) (n : Nat) : List Nat :=
  match n, src with
  | 0, _ => []
  | n + 1, [] => List.replicate (n + 1) 0
  | n + 1, b :: src1 =>
      if b = 0 then List.replicate (n + 1) 0 else b :: strncpyN src1 n

/-- The 16-byte `pname` buffer after lines 151-152 of crio-lxc-init.c:
`strncpy(pname, cid, sizeof(pname))` followed by
`pname[sizeof(pname)-1] = '\0'`. -/
def pnameOf (cid : List Nat) : List Nat := (strncpyN cid 16).set 15 0

/-- `writefifo(fifo, msg)` (lines 22-38 of crio-lxc-init.c).  `openOk`
models whether `open(fifo, O_WRONLY)` succeeded; `writeRet` is the value
returned by `write(fd, msg, strlen(msg))` (either -1 or the number of
bytes actually written, at most `strlenOf msg`); `closeRet` is the value
returned by `close(fd)`.  The result is the C return value: note line 34
compares the `write` return only against -1, so the byte count is
discarded. -/
def writefifo (openOk : Bool) (msg : List Nat) (writeRet : Int) (closeRet : Int) : Int :=
  if openOk = false then -1
  else if writeRet = -1 then -1
  else closeRet

/-- `sizeof(buf)` in `main` (line 138): 1 MiB. -/
def mainBufLen : Nat := 1024 * 1024

/-- `sizeof(args)` in `main`, passed as `maxlines` at line 154: the array
is `char *args[256]`, so `sizeof` yields 256 * 8 = 2048 on the LP64 target
(not the element count 256). -/
def mainMaxLines : Nat := 2048

/-- How the process run ends, as observable from outside. -/
inductive ProcResult where
  | exitCode (status : Int) : ProcResult
  | replaced (argv : List (Option (List Nat))) (env : Env) : ProcResult
deriving DecidableEq

/-- `main` (lines 132-178 of crio-lxc-init.c) as a function of: whether
`argc == 2` held, the container id `cid`, the bytes of `cmdline.txt` and
`environ`, and the outside-world results of the fifo syscalls and of
`execvp`.  Faithful to the source:
* `readlines` cannot return -1 in the error-free-I/O model, so the check
  at line 154 never fires;
* line 161 treats the `load_environment` result as fatal only when it is
  exactly -1 — `E2BIG` (7) and `EINVAL` (22) pass the test;
* the `prctl` failure at line 168 is only warned about, affecting nothing
  modelled here;
* line 172 exits 1 when `writefifo` returned -1;
* line 177 calls `execvp(args[0], args)`.  With zero tokens `args[0]` is
  the NULL sentinel and `execvp` always fails; otherwise `execOk` says
  whether the exec succeeded.  When `execvp` returns, control falls off
  the end of `main`, which in C yields exit status 0. -/
def runInit (argcOk : Bool) (cid cmdline environ : List Nat)
    (fifoOpenOk : Bool) (fifoWriteRet fifoCloseRet : Int) (execOk : Bool) :
    ProcResult :=
  if argcOk = false then .exitCode 1
  else
    let toks := readlines cmdline mainBufLen mainMaxLines
    let r := load_environment environ mainBufLen []
    if r.1 = -1 then .exitCode 1
    else if writefifo fifoOpenOk cid fifoWriteRet fifoCloseRet = -1 then .exitCode 1
    else if execOk = true ∧ toks ≠ [] then
      .replaced (readlinesArray cmdline mainBufLen mainMaxLines) r.2
    else .exitCode 0

/-- Evaluation helper: the empty `environ` stream.  The first `getc` hits
end-of-file at `i = 0`, `buf[0]` is set to NUL, `value` is still NULL, so
line 118 returns `EINVAL` (22) — not 0. -/
theorem load_env_nil : load_environment [] mainBufLen [] = (22, []) :=
  load_environment_done_none _ _ _ [] true [] (by decide)

/-- Evaluation helper: the stream `A=B\0C\0` (second record has no `=`).
The first record installs A=B, the second hits `return EINVAL` (22),
leaving the partial environment in place. -/
theorem load_env_keeps_first_pair :
    load_environment [65, 61, 66, 0, 67, 0] mainBufLen [] = (22, [([65], [66])]) := by
  rw [load_environment_done_false _ _ _ [65] [66] [67, 0] (by decide)]
  rw [if_neg (by decide)]
  exact load_environment_done_none _ _ _ [67] false [] (by decide)

/-- Evaluation helper: the stream `A=B` terminated by end-of-file installs
A=B and returns 0 (the `fclose` result). -/
theorem load_env_AB_eof :
    load_environment [65, 61, 66] mainBufLen [] = (0, [([65], [66])]) := by
  rw [load_environment_done_true _ _ _ [65] [66] [] (by decide)]
  rw [if_neg (by decide)]
  rfl

/-- Claim C1: the spec requires the invalid-record (`EINVAL`) and
buffer-capacity (`E2BIG`) failures of `load_environment` to kill the whole
process with a non-zero exit and no partially installed environment.  The
code violates this: `load_environment` returns the positive codes 22
(`EINVAL`, for the stream `A=B\0C\0` whose second record has no `=`) and 7
(`E2BIG`), but `main` (line 161) exits only when the result is exactly -1,
so the process keeps the partial environment {A=B} and proceeds all the way
to `execvp`. -/
theorem claim_C1_env_errors_not_fatal :
    (load_environment [65, 61, 66, 0, 67, 0] mainBufLen []).1 = 22 ∧
    runInit true [99] [120, 10] [65, 61, 66, 0, 67, 0] true 1 0 true =
      .replaced [some [120], none] [([65], [66])] ∧
    (load_environment [65, 66, 66, 66] 4 []).1 = 7 := by
  refine ⟨by rw [load_env_keeps_first_pair], ?_, ?_⟩
  · simp only [runInit, load_env_keeps_first_pair]
    decide
  · rw [load_environment_e2big _ _ _ (by decide)]

/-- Claim C2: the spec says exit status 0 happens only via a successful
`execvp`, and a failed `execvp` must be reported and answered with a
non-zero exit.  The code violates this: when `execvp` returns (here:
`cmdline.txt` = `/nx\n` with no executable `/nx`, modelled by `execOk =
false`), control falls off the end of `main` (line 178), which in C yields
exit status 0 — this binary's own exit code 0, with no diagnostic. -/
theorem claim_C2_failed_exec_exits_zero :
    readlines [47, 110, 120, 10] mainBufLen mainMaxLines = [[47, 110, 120]] ∧
    runInit true [99] [47, 110, 120, 10] [] true 1 0 false = .exitCode 0 := by
  refine ⟨by decide, ?_⟩
  simp only [runInit, load_env_nil]
  decide

/-- Claim C3: the spec requires an empty `cmdline.txt` (zero tokens) to be
a fatal configuration error with a non-zero exit before exec.  The code
violates this: `readlines` returns 0 tokens, the check at line 154 compares
only against -1, and the process walks on to `execvp(args[0], args)` with
`args[0] == NULL` — which necessarily fails (even with `execOk = true`),
after which `main` falls off the end with exit status 0. -/
theorem claim_C3_empty_cmdline_not_fatal :
    readlines [] mainBufLen mainMaxLines = [] ∧
    runInit true [99] [] [65, 61, 66] true 1 0 true = .exitCode 0 := by
  refine ⟨by decide, ?_⟩
  simp only [runInit, load_env_AB_eof]
  decide

/-- Claim C4: the spec says end-of-file with zero bytes read is the normal,
successful termination of `load_environment` (an empty `environ` file is
legal).  The code violates this: on the empty stream the first `getc`
returns `EOF` at `i = 0` with `value` still NULL, so line 118 returns
`EINVAL` (22), not success.  No variable is installed, and the process
continues only because `main` (line 161) fails to recognise 22 as an
error. -/
theorem claim_C4_empty_environ_einval :
    load_environment [] mainBufLen [] = (22, []) ∧
    runInit true [99] [120, 10] [] true 1 0 true = .replaced [some [120], none] [] := by
  refine ⟨load_env_nil, ?_⟩
  simp only [runInit, load_env_nil]
  decide

/-- Claim C10: `writefifo` (line 34) compares the return of
`write(fd, msg, strlen(msg))` only against -1 and discards the byte count,
so a short write — strictly fewer bytes than `strlen(msg)` — is reported
as success (the `close` result, 0). -/
theorem claim_C10_short_write_is_success (msg : List Nat) (writeRet : Int)
    (h0 : 0 ≤ writeRet) (hshort : writeRet < (strlenOf msg : Int)) :
    writefifo true msg writeRet 0 = 0 := by
  rw [writefifo]
  rw [if_neg (by decide)]
  rw [if_neg (by omega)]

/-- Witness for C10: a 3-byte message of which only 1 byte was written is
still reported as success. -/
theorem claim_C10_witness :
    (0 : Int) ≤ 1 ∧ (1 : Int) < (strlenOf [97, 98, 99] : Int) ∧
    writefifo true [97, 98, 99] 1 0 = 0 :=
  ⟨by decide, by decide,
    claim_C10_short_write_is_success [97, 98, 99] 1 (by decide) (by decide)⟩

/-- A byte other than 255 does not read as `EOF`. -/
theorem toSChar_ne_neg_one {b : Nat} (h1 : b < 256) (h2 : b ≠ 255) : toSChar b ≠ -1 := by
  unfold toSChar; split <;> omega

theorem toSChar_ne_zero {b : Nat} (h1 : b < 256) (h2 : b ≠ 0) : toSChar b ≠ 0 := by
  unfold toSChar; split <;> omega

theorem toSChar_ne_61 {b : Nat} (h1 : b < 256) (h2 : b ≠ 61) : toSChar b ≠ 61 := by
  unfold toSChar; split <;> omega

/-- Well-formedness of a byte of an environment key: a byte value that is
not the record terminator NUL, not the key/value separator `'='`, and not
255 (which `load_environment` reads as `EOF`, see `toSChar`). -/
def goodKeyByte (b : Nat) : Prop := b < 256 ∧ b ≠ 0 ∧ b ≠ 61 ∧ b ≠ 255

/-- Well-formedness of a byte of an environment value: not NUL and not 255
(read as `EOF`); a value byte may well be `'='`. -/
def goodValByte (b : Nat) : Prop := b < 256 ∧ b ≠ 0 ∧ b ≠ 255

instance (b : Nat) : Decidable (goodKeyByte b) := by unfold goodKeyByte; infer_instance

instance (b : Nat) : Decidable (goodValByte b) := by unfold goodValByte; infer_instance

/-- Scanning the key part of a record: ordinary key bytes are appended to
the key until the first `'='` switches the scan to the value (line 108). -/
theorem readRec_scan_key (k : List Nat) :
    ∀ (rest : List Nat) (i buflen : Nat) (key0 : List Nat),
      (∀ b ∈ k, goodKeyByte b) →
      i + k.length + 1 < buflen →
      readRec (k ++ 61 :: rest) i buflen key0 none =
        readRec rest (i + k.length + 1) buflen (key0 ++ k) (some []) := by
  induction k with
  | nil =>
      intro rest i buflen key0 _ hlen
      simp only [List.nil_append, List.length_nil, List.append_nil]
      rw [readRec]
      rw [if_pos (by omega)]
      rw [if_neg (by decide), if_neg (by decide), if_neg (by omega)]
      rw [if_pos (by decide)]
  | cons b k ih =>
      intro rest i buflen key0 hgood hlen
      have hb : goodKeyByte b := hgood b (List.mem_cons_self b k)
      obtain ⟨hb1, hb2, hb3, hb4⟩ := hb
      simp only [List.cons_append, List.length_cons]
      rw [readRec]
      rw [if_pos (by simp only [List.length_cons] at hlen; omega)]
      rw [if_neg (toSChar_ne_neg_one hb1 hb4)]
      rw [if_neg (toSChar_ne_zero hb1 hb2)]
      rw [if_neg (by simp only [List.length_cons] at hlen; omega)]
      rw [if_neg (toSChar_ne_61 hb1 hb3)]
      rw [ih rest (i + 1) buflen (key0 ++ [b])
        (fun x hx => hgood x (List.mem_cons_of_mem b hx))
        (by simp only [List.length_cons] at hlen; omega)]
      congr 1
      · omega
      · simp

/-- Scanning the value part of a record: once a value has started, every
byte up to the terminating NUL is appended to it — including further `'='`
bytes, which the `value == NULL` guard at line 108 leaves alone. -/
theorem readRec_scan_val (v : List Nat) :
    ∀ (rest : List Nat) (i buflen : Nat) (key v0 : List Nat),
      (∀ b ∈ v, goodValByte b) →
      i + v.length < buflen →
      readRec (v ++ 0 :: rest) i buflen key (some v0) =
        .done key (some (v0 ++ v)) false rest := by
  induction v with
  | nil =>
      intro rest i buflen key v0 _ hlen
      simp only [List.nil_append, List.append_nil]
      rw [readRec]
      rw [if_pos (by omega)]
      rw [if_neg (by decide)]
      rw [if_pos (by decide)]
  | cons b v ih =>
      intro rest i buflen key v0 hgood hlen
      have hb : goodValByte b := hgood b (List.mem_cons_self b v)
      obtain ⟨hb1, hb2, hb3⟩ := hb
      simp only [List.cons_append, List.length_cons] at hlen ⊢
      rw [readRec]
      rw [if_pos (by omega)]
      rw [if_neg (toSChar_ne_neg_one hb1 hb3)]
      rw [if_neg (toSChar_ne_zero hb1 hb2)]
      rw [if_neg (by omega)]
      rw [ih rest (i + 1) buflen key (v0 ++ [b])
        (fun x hx => hgood x (List.mem_cons_of_mem b hx)) (by omega)]
      simp

/-- One `key=value` record of the `environ` file, NUL-terminated
(61 is `'='`). -/
def envRecord (k v : List Nat) : List Nat := k ++ 61 :: (v ++ [0])

/-- A well-formed record that fits the buffer scans to exactly its key and
value, consuming nothing beyond its terminating NUL. -/
theorem readRec_record (k v : List Nat) (rest : List Nat) (buflen : Nat)
    (hk : ∀ b ∈ k, goodKeyByte b) (hv : ∀ b ∈ v, goodValByte b)
    (hlen : k.length + v.length + 2 ≤ buflen) :
    readRec (envRecord k v ++ rest) 0 buflen [] none = .done k (some v) false rest := by
  have he : envRecord k v ++ rest = k ++ 61 :: (v ++ 0 :: rest) := by
    simp [envRecord]
  rw [he]
  rw [readRec_scan_key k (v ++ 0 :: rest) 0 buflen [] hk (by omega)]
  rw [List.nil_append]
  rw [readRec_scan_val v rest (0 + k.length + 1) buflen k [] hv (by omega)]
  simp

/-- One iteration of the `while` loop of `load_environment` on a
well-formed leading record: the pair is installed and parsing continues
with the remainder of the stream. -/
theorem load_env_record_step (k v : List Nat) (rest : List Nat) (buflen : Nat) (env : Env)
    (hk : ∀ b ∈ k, goodKeyByte b) (hk0 : k ≠ []) (hv : ∀ b ∈ v, goodValByte b)
    (hlen : k.length + v.length + 2 ≤ buflen) :
    load_environment (envRecord k v ++ rest) buflen env =
      load_environment rest buflen (setenvUpd env k v) := by
  rw [load_environment_done_false _ _ _ k v rest (readRec_record k v rest buflen hk hv hlen)]
  rw [if_neg hk0]

/-- Exhausting the stream: on an empty remainder `load_environment`
returns `EINVAL` (22) — see claim C4 — leaving the environment as built. -/
theorem load_env_empty (buflen : Nat) (env : Env) (h : 0 < buflen) :
    load_environment [] buflen env = (22, env) :=
  load_environment_done_none _ _ _ [] true [] (by rw [readRec, if_pos h])

/-- Claim C5: for every well-formed environment stream `k1=v1\0k2=v2\0`
(keys non-empty, record bytes excluding NUL, keys excluding `'='`, and no
byte 255, each record fitting the buffer), `load_environment` installs
exactly the pairs {k1:v1, k2:v2} into the (initially empty) environment,
and when the second record repeats the first key the later value
overwrites the earlier one. -/
theorem claim_C5_wellformed_stream_installed (k1 v1 k2 v2 : List Nat) (buflen : Nat)
    (hk1 : k1 ≠ [] ∧ ∀ b ∈ k1, goodKeyByte b) (hv1 : ∀ b ∈ v1, goodValByte b)
    (hk2 : k2 ≠ [] ∧ ∀ b ∈ k2, goodKeyByte b) (hv2 : ∀ b ∈ v2, goodValByte b)
    (h1 : k1.length + v1.length + 2 ≤ buflen) (h2 : k2.length + v2.length + 2 ≤ buflen) :
    (load_environment (envRecord k1 v1 ++ envRecord k2 v2) buflen []).2 =
      if k1 = k2 then [(k1, v2)] else [(k1, v1), (k2, v2)] := by
  have hrw : envRecord k1 v1 ++ envRecord k2 v2 =
      envRecord k1 v1 ++ (envRecord k2 v2 ++ []) := by simp
  rw [hrw]
  rw [load_env_record_step k1 v1 _ buflen [] hk1.2 hk1.1 hv1 h1]
  rw [load_env_record_step k2 v2 [] buflen _ hk2.2 hk2.1 hv2 h2]
  rw [load_env_empty buflen _ (by omega)]
  by_cases h : k1 = k2
  · subst h; simp [setenvUpd]
  · simp [setenvUpd, h]

/-- Witness for C5 at a concrete input: the stream `A=B\0A=C\0` installs
exactly A=C (the later record overwrites the earlier). -/
theorem claim_C5_witness :
    (load_environment (envRecord [65] [66] ++ envRecord [65] [67]) 16 []).2 = [([65], [67])] := by
  have h := claim_C5_wellformed_stream_installed [65] [66] [65] [67] 16
    (by decide) (by decide) (by decide) (by decide) (by decide) (by decide)
  simpa using h

/-- Claim C6: a record with more than one `'='` (the hypothesis `hmore`
puts at least one `'='` inside the value) is split at the first `'='`
only: the key is the bytes before the first `'='` and the value is
everything after it up to the terminator, installed intact. -/
theorem claim_C6_split_at_first_equals (k v : List Nat) (buflen : Nat)
    (hmore : 61 ∈ v)
    (hk : k ≠ []) (hkb : ∀ b ∈ k, goodKeyByte b) (hv : ∀ b ∈ v, goodValByte b)
    (hlen : k.length + v.length + 2 ≤ buflen) :
    (load_environment (envRecord k v) buflen []).2 = [(k, v)] := by
  have hrw : envRecord k v = envRecord k v ++ [] := by simp
  rw [hrw, load_env_record_step k v [] buflen [] hkb hk hv hlen,
    load_env_empty buflen _ (by omega)]
  simp [setenvUpd]

/-- Witness for C6 at a concrete input: the record `A=B=C\0` installs the
pair A : B=C. -/
theorem claim_C6_witness :
    (load_environment (envRecord [65] [66, 61, 67]) 8 []).2 = [([65], [66, 61, 67])] :=
  claim_C6_split_at_first_equals [65] [66, 61, 67] 8 (by decide) (by decide)
    (by decide) (by decide) (by decide)

/-- A byte string without NUL is its own C string. -/
theorem cstr_all_ne (l : List Nat) (h : ∀ b ∈ l, b ≠ 0) : cstr l = l := by
  induction l with
  | nil => rfl
  | cons b l ih =>
      rw [cstr, List.takeWhile_cons_of_pos (by simp [h b (List.mem_cons_self b l)])]
      rw [← cstr, ih (fun x hx => h x (List.mem_cons_of_mem b hx))]

/-- `strndup(line, strlen(line)-1)` on a newline-terminated line yields
the line with the newline stripped. -/
theorem lineToken_line (l : List Nat) (h : ∀ b ∈ l, b ≠ 0) :
    lineToken (l ++ [10]) = l := by
  have hc : cstr (l ++ [10]) = l ++ [10] := by
    apply cstr_all_ne
    intro b hb
    rcases List.mem_append.mp hb with h1 | h1
    · exact h b h1
    · simp at h1; omega
  rw [lineToken, hc]
  simp

/-- `fgets` on a stream starting with a newline-terminated line that fits
the buffer stores exactly that line, newline included. -/
theorem fgetsGo_line (l : List Nat) :
    ∀ (fuel : Nat) (rest : List Nat), (∀ b ∈ l, b ≠ 10) → l.length + 1 ≤ fuel →
      fgetsGo fuel (l ++ 10 :: rest) = (l ++ [10], rest) := by
  induction l with
  | nil =>
      intro fuel rest _ hf
      match fuel, hf with
      | n + 1, _ => simp [fgetsGo]
  | cons b l ih =>
      intro fuel rest hb hf
      match fuel, hf with
      | n + 1, hf =>
          simp only [List.cons_append]
          rw [fgetsGo]
          rw [if_neg (hb b (List.mem_cons_self b l))]
          rw [ih n rest (fun x hx => hb x (List.mem_cons_of_mem b hx))
            (by simp only [List.length_cons] at hf; omega)]

/-- A well-formed `cmdline.txt`: each line followed by a newline
(byte 10). -/
def linesFile : List (List Nat) → List Nat
  | [] => []
  | l :: ls => l ++ 10 :: linesFile ls

/-- The `readlines` loop on a well-formed file with at most `fuel` lines
records exactly the lines, newline stripped. -/
theorem readlinesGo_lines (L : List (List Nat)) :
    ∀ (fuel buflen : Nat),
      (∀ l ∈ L, ∀ b ∈ l, b ≠ 0 ∧ b ≠ 10) →
      (∀ l ∈ L, l.length + 2 ≤ buflen) →
      L.length ≤ fuel →
      readlinesGo fuel buflen (linesFile L) = L := by
  induction L with
  | nil =>
      intro fuel buflen _ _ _
      cases fuel with
      | zero => rfl
      | succ n => rw [readlinesGo, linesFile, fgets, if_pos rfl]
  | cons l L ih =>
      intro fuel buflen hb hlen hf
      cases fuel with
      | zero => simp at hf
      | succ n =>
          rw [linesFile, readlinesGo]
          rw [fgets, if_neg (by simp)]
          rw [fgetsGo_line l (buflen - 1) (linesFile L)
            (fun b hb2 => (hb l (List.mem_cons_self l L) b hb2).2)
            (by have := hlen l (List.mem_cons_self l L); omega)]
          show lineToken (l ++ [10]) :: readlinesGo n buflen (linesFile L) = l :: L
          rw [lineToken_line l (fun b hb2 => (hb l (List.mem_cons_self l L) b hb2).1)]
          rw [ih n buflen (fun x hx => hb x (List.mem_cons_of_mem l hx))
            (fun x hx => hlen x (List.mem_cons_of_mem l hx))
            (by simp only [List.length_cons] at hf; omega)]

/-- Claim C7: for every well-formed `cmdline.txt` of N newline-terminated
lines (no NUL or newline bytes inside a line, each line plus its newline
fitting the `fgets` buffer) with N less than the output capacity
`maxlines`, `readlines` produces exactly the N tokens, the k-th token
being the k-th line with its trailing newline removed, and the `lines`
array ends with the NULL sentinel after the last token. -/
theorem claim_C7_readlines_tokens (L : List (List Nat)) (buflen maxlines : Nat)
    (hb : ∀ l ∈ L, ∀ b ∈ l, b < 256 ∧ b ≠ 0 ∧ b ≠ 10)
    (hlen : ∀ l ∈ L, l.length + 2 ≤ buflen)
    (hN : L.length < maxlines) :
    readlines (linesFile L) buflen maxlines = L ∧
    readlinesArray (linesFile L) buflen maxlines = L.map some ++ [none] := by
  have h1 : readlines (linesFile L) buflen maxlines = L := by
    rw [readlines]
    exact readlinesGo_lines L (maxlines - 1) buflen
      (fun l hl b hb2 => ⟨(hb l hl b hb2).2.1, (hb l hl b hb2).2.2⟩) hlen (by omega)
  exact ⟨h1, by rw [readlinesArray, h1]⟩

/-- Witness for C7 at a concrete input: a two-line file yields its two
tokens and the sentinel. -/
theorem claim_C7_witness :
    readlines (linesFile [[47, 98], [104, 105]]) 8 4 = [[47, 98], [104, 105]] ∧
    readlinesArray (linesFile [[47, 98], [104, 105]]) 8 4 =
      [some [47, 98], some [104, 105], none] := by
  have h := claim_C7_readlines_tokens [[47, 98], [104, 105]] 8 4 (by decide) (by decide) (by decide)
  simpa using h

/-- Writing a 0 into a list of zeros changes nothing. -/
theorem set_replicate_zero (n : Nat) : ∀ j, (List.replicate n (0 : Nat)).set j 0 = List.replicate n 0 := by
  induction n with
  | zero => intro j; rfl
  | succ n ih =>
      intro j
      cases j with
      | zero => simp [List.replicate_succ, List.set]
      | succ j => simp [List.replicate_succ, List.set, ih j]

/-- `strncpy` from an empty source zero-fills the whole destination. -/
theorem strncpyN_nil (n : Nat) : strncpyN [] n = List.replicate n 0 := by
  cases n <;> simp [strncpyN]

/-- `strncpy(dst, src, n)` writes exactly `n` bytes, whatever the source:
the destination buffer is filled and never overrun. -/
theorem strncpyN_length (src : List Nat) : ∀ n, (strncpyN src n).length = n := by
  induction src with
  | nil => intro n; rw [strncpyN_nil]; simp
  | cons b src ih =>
      intro n
      cases n with
      | zero => rfl
      | succ n =>
          rw [strncpyN]
          by_cases hb : b = 0
          · simp [hb]
          · simp [hb, ih n]

/-- The `strncpy` + forced final NUL combination of lines 151-152, for a
buffer of any size `n ≥ 1`: the result is exactly `n` bytes and its C
string content is the source truncated to `n - 1` characters. -/
theorem pname_spec (cid : List Nat) :
    ∀ n, 1 ≤ n → (∀ b ∈ cid, b ≠ 0) →
      ((strncpyN cid n).set (n - 1) 0).length = n ∧
      cstr ((strncpyN cid n).set (n - 1) 0) = cid.take (n - 1) := by
  induction cid with
  | nil =>
      intro n h1 _
      rw [strncpyN_nil, set_replicate_zero]
      constructor
      · simp
      · cases n with
        | zero => omega
        | succ m => simp [List.replicate_succ, cstr]
  | cons b cid ih =>
      intro n h1 hb
      have hb0 : b ≠ 0 := hb b (List.mem_cons_self b cid)
      match n, h1 with
      | 1, _ =>
          rw [strncpyN]
          rw [if_neg hb0]
          cases cid <;> simp [strncpyN, cstr]
      | (m + 2), _ =>
          rw [strncpyN]
          rw [if_neg hb0]
          have hm : m + 2 - 1 = (m + 1 - 1) + 1 := by omega
          rw [hm]
          rw [List.set]
          have ihm := ih (m + 1) (by omega) (fun x hx => hb x (List.mem_cons_of_mem b hx))
          constructor
          · simp [strncpyN_length]
          · rw [cstr, List.takeWhile_cons_of_pos (by simp [hb0])]
            rw [← cstr, ihm.2]
            simp

/-- Claim C8: for every container identifier (a C string, hence free of
NUL bytes), the 16-byte `pname` buffer prepared at lines 151-152 holds the
identifier truncated to at most 15 characters, is always NUL-terminated
(its C-string content has length at most 15), and is exactly 16 bytes —
no identifier length overruns it. -/
theorem claim_C8_pname_truncated (cid : List Nat) (h : ∀ b ∈ cid, b ≠ 0) :
    (pnameOf cid).length = 16 ∧ cstr (pnameOf cid) = cid.take 15 ∧
    (cstr (pnameOf cid)).length ≤ 15 := by
  have h16 := pname_spec cid 16 (by omega) h
  norm_num at h16
  rw [pnameOf]
  refine ⟨by simpa using h16.1, h16.2, ?_⟩
  rw [h16.2]
  simp [List.length_take]

/-- Witness for C8 at a concrete input: a 20-character identifier is
truncated to its first 15 characters in the 16-byte buffer. -/
theorem claim_C8_witness :
    (pnameOf (List.replicate 20 97)).length = 16 ∧
    cstr (pnameOf (List.replicate 20 97)) = (List.replicate 20 97).take 15 ∧
    (cstr (pnameOf (List.replicate 20 97))).length ≤ 15 :=
  claim_C8_pname_truncated (List.replicate 20 97) (by decide)

/-- An exhausted stream: `getc` returns `EOF` and the scan stops. -/
theorem readRec_nil_eq (i buflen : Nat) (key : List Nat) (value : Option (List Nat))
    (hi : i < buflen) : readRec [] i buflen key value = .done key value true [] := by
  cases value <;> rw [readRec, if_pos hi]

/-- When `i < buflen` fails at loop entry, nothing is read. -/
theorem readRec_stop (i buflen : Nat) (key : List Nat) (value : Option (List Nat))
    (hi : ¬ i < buflen) :
    ∀ s, readRec s i buflen key value = .fellOff key value s := by
  intro s
  cases s <;> cases value <;> rw [readRec, if_neg hi]

/-- A byte whose signed-char reading is -1 takes the `c == EOF` branch:
the scan stops and the remaining stream is left unread. -/
theorem readRec_cons_eof (b : Nat) (rest : List Nat) (i buflen : Nat)
    (key : List Nat) (value : Option (List Nat))
    (hi : i < buflen) (hb : toSChar b = -1) :
    readRec (b :: rest) i buflen key value = .done key value true rest := by
  cases value <;> rw [readRec, if_pos hi, if_pos hb]

/-- A NUL byte ends the record. -/
theorem readRec_cons_zero (b : Nat) (rest : List Nat) (i buflen : Nat)
    (key : List Nat) (value : Option (List Nat))
    (hi : i < buflen) (hb1 : ¬ toSChar b = -1) (hb0 : toSChar b = 0) :
    readRec (b :: rest) i buflen key value = .done key value false rest := by
  cases value <;> rw [readRec, if_pos hi, if_neg hb1, if_pos hb0]

/-- An ordinary byte stored in the last buffer slot fires `return E2BIG`. -/
theorem readRec_cons_e2big (b : Nat) (rest : List Nat) (i buflen : Nat)
    (key : List Nat) (value : Option (List Nat))
    (hi : i < buflen) (hb1 : ¬ toSChar b = -1) (hb0 : ¬ toSChar b = 0)
    (hl : i = buflen - 1) :
    readRec (b :: rest) i buflen key value = .e2big := by
  cases value <;> rw [readRec, if_pos hi, if_neg hb1, if_neg hb0, if_pos hl]

/-- The first `'='` byte: the key is terminated and the value starts. -/
theorem readRec_cons_sep (b : Nat) (rest : List Nat) (i buflen : Nat) (key : List Nat)
    (hi : i < buflen) (hb1 : ¬ toSChar b = -1) (hb0 : ¬ toSChar b = 0)
    (hl : ¬ i = buflen - 1) (h61 : toSChar b = 61) :
    readRec (b :: rest) i buflen key none = readRec rest (i + 1) buflen key (some []) := by
  rw [readRec, if_pos hi, if_neg hb1, if_neg hb0, if_neg hl, if_pos h61]

/-- An ordinary byte before any `'='` extends the key. -/
theorem readRec_cons_keyByte (b : Nat) (rest : List Nat) (i buflen : Nat) (key : List Nat)
    (hi : i < buflen) (hb1 : ¬ toSChar b = -1) (hb0 : ¬ toSChar b = 0)
    (hl : ¬ i = buflen - 1) (h61 : ¬ toSChar b = 61) :
    readRec (b :: rest) i buflen key none =
      readRec rest (i + 1) buflen (key ++ [b]) none := by
  rw [readRec, if_pos hi, if_neg hb1, if_neg hb0, if_neg hl, if_neg h61]

/-- An ordinary byte after the `'='` extends the value — even another
`'='`, since `value` is no longer NULL (line 108). -/
theorem readRec_cons_valByte (b : Nat) (rest : List Nat) (i buflen : Nat)
    (key v0 : List Nat)
    (hi : i < buflen) (hb1 : ¬ toSChar b = -1) (hb0 : ¬ toSChar b = 0)
    (hl : ¬ i = buflen - 1) :
    readRec (b :: rest) i buflen key (some v0) =
      readRec rest (i + 1) buflen key (some (v0 ++ [b])) := by
  rw [readRec, if_pos hi, if_neg hb1, if_neg hb0, if_neg hl]

/-- A record scan of a stream whose tail starts with byte 255 (0xFF)
relates to the scan of the stream cut at that byte: both fail the same
way, or both stop with the same key and value — the 0xFF byte reads as
`EOF`, so nothing at or beyond it influences the scan except as an
end-of-file marker. -/
theorem readRec_ff (a : List Nat) :
    ∀ (suf : List Nat) (i buflen : Nat) (key : List Nat) (value : Option (List Nat)),
      (readRec (a ++ 255 :: suf) i buflen key value = .e2big ∧
        readRec a i buflen key value = .e2big) ∨
      (∃ k v r1 r2, readRec (a ++ 255 :: suf) i buflen key value = .done k v true r1 ∧
        readRec a i buflen key value = .done k v true r2) ∨
      (∃ k v r, readRec (a ++ 255 :: suf) i buflen key value = .done k v false (r ++ 255 :: suf) ∧
        readRec a i buflen key value = .done k v false r) ∨
      (∃ k v r1 r2, readRec (a ++ 255 :: suf) i buflen key value = .fellOff k v r1 ∧
        readRec a i buflen key value = .fellOff k v r2) := by
  induction a with
  | nil =>
      intro suf i buflen key value
      simp only [List.nil_append]
      by_cases hi : i < buflen
      · exact Or.inr (Or.inl ⟨key, value, suf, [],
          readRec_cons_eof 255 suf i buflen key value hi (by decide),
          readRec_nil_eq i buflen key value hi⟩)
      · exact Or.inr (Or.inr (Or.inr ⟨key, value, 255 :: suf, [],
          readRec_stop i buflen key value hi (255 :: suf),
          readRec_stop i buflen key value hi []⟩))
  | cons b a ih =>
      intro suf i buflen key value
      simp only [List.cons_append]
      by_cases hi : i < buflen
      · by_cases hm1 : toSChar b = -1
        · exact Or.inr (Or.inl ⟨key, value, a ++ 255 :: suf, a,
            readRec_cons_eof b (a ++ 255 :: suf) i buflen key value hi hm1,
            readRec_cons_eof b a i buflen key value hi hm1⟩)
        · by_cases h0 : toSChar b = 0
          · exact Or.inr (Or.inr (Or.inl ⟨key, value, a,
              readRec_cons_zero b (a ++ 255 :: suf) i buflen key value hi hm1 h0,
              readRec_cons_zero b a i buflen key value hi hm1 h0⟩))
          · by_cases hlast : i = buflen - 1
            · exact Or.inl
                ⟨readRec_cons_e2big b (a ++ 255 :: suf) i buflen key value hi hm1 h0 hlast,
                  readRec_cons_e2big b a i buflen key value hi hm1 h0 hlast⟩
            · cases value with
              | none =>
                  by_cases h61 : toSChar b = 61
                  · rw [readRec_cons_sep b (a ++ 255 :: suf) i buflen key hi hm1 h0 hlast h61,
                      readRec_cons_sep b a i buflen key hi hm1 h0 hlast h61]
                    exact ih suf (i + 1) buflen key (some [])
                  · rw [readRec_cons_keyByte b (a ++ 255 :: suf) i buflen key hi hm1 h0 hlast h61,
                      readRec_cons_keyByte b a i buflen key hi hm1 h0 hlast h61]
                    exact ih suf (i + 1) buflen (key ++ [b]) none
              | some v0 =>
                  rw [readRec_cons_valByte b (a ++ 255 :: suf) i buflen key v0 hi hm1 h0 hlast,
                    readRec_cons_valByte b a i buflen key v0 hi hm1 h0 hlast]
                  exact ih suf (i + 1) buflen key (some (v0 ++ [b]))
      · exact Or.inr (Or.inr (Or.inr ⟨key, value, b :: (a ++ 255 :: suf), b :: a,
          readRec_stop i buflen key value hi (b :: (a ++ 255 :: suf)),
          readRec_stop i buflen key value hi (b :: a)⟩))

/-- Induction kernel for claim C9, on the length of the bytes before the
0xFF byte. -/
theorem load_env_ff_aux (n : Nat) :
    ∀ (pre suf : List Nat) (buflen : Nat) (env : Env), pre.length ≤ n →
      load_environment (pre ++ 255 :: suf) buflen env =
        load_environment pre buflen env := by
  induction n with
  | zero =>
      intro pre suf buflen env hlen
      have hpre : pre = [] := List.eq_nil_of_length_eq_zero (by omega)
      subst hpre
      simp only [List.nil_append]
      by_cases hb : 0 < buflen
      · rw [load_environment_done_none _ _ _ [] true suf
          (readRec_cons_eof 255 suf 0 buflen [] none hb (by decide))]
        rw [load_environment_done_none _ _ _ [] true []
          (readRec_nil_eq 0 buflen [] none hb)]
      · rw [load_environment_fellOff _ _ _ [] none (255 :: suf)
          (readRec_stop 0 buflen [] none hb (255 :: suf))]
        rw [load_environment_fellOff _ _ _ [] none []
          (readRec_stop 0 buflen [] none hb [])]
  | succ n ih =>
      intro pre suf buflen env hlen
      rcases readRec_ff pre suf 0 buflen [] none with
        ⟨h1, h2⟩ | ⟨k, v, r1, r2, h1, h2⟩ | ⟨k, v, r, h1, h2⟩ | ⟨k, v, r1, r2, h1, h2⟩
      · rw [load_environment_e2big _ _ _ h1, load_environment_e2big _ _ _ h2]
      · cases v with
        | none =>
            rw [load_environment_done_none _ _ _ k true r1 h1,
              load_environment_done_none _ _ _ k true r2 h2]
        | some v0 =>
            rw [load_environment_done_true _ _ _ k v0 r1 h1,
              load_environment_done_true _ _ _ k v0 r2 h2]
      · cases v with
        | none =>
            rw [load_environment_done_none _ _ _ k false (r ++ 255 :: suf) h1,
              load_environment_done_none _ _ _ k false r h2]
        | some v0 =>
            rw [load_environment_done_false _ _ _ k v0 (r ++ 255 :: suf) h1,
              load_environment_done_false _ _ _ k v0 r h2]
            by_cases hk : k = []
            · rw [if_pos hk, if_pos hk]
            · rw [if_neg hk, if_neg hk]
              apply ih
              have := readRec_rest_length pre 0 buflen [] none k (some v0) r h2
              omega
      · rw [load_environment_fellOff _ _ _ k v r1 h1,
          load_environment_fellOff _ _ _ k v r2 h2]

/-- Claim C9: a byte 0xFF (255) in the `environ` file is treated as
end-of-file, because each input byte is stored in a signed `char` and then
compared against `EOF`: `load_environment` on any stream
`pre ++ 0xFF ++ suf` behaves exactly as on `pre` alone — the record in
progress is finalized as at end-of-file and no byte after the 0xFF is
read, whatever those bytes are. -/
theorem claim_C9_xff_byte_acts_as_eof (pre suf : List Nat) (buflen : Nat) (env : Env) :
    load_environment (pre ++ 255 :: suf) buflen env =
      load_environment pre buflen env :=
  load_env_ff_aux pre.length pre suf buflen env (le_refl pre.length)
